import Mathlib

/-!
A shallow embedding of the srag pipeline-execution engine
(source file src/srag/schema/pipeline.py) together with theorems about
its initialization, execution, streaming and listener-broadcast
behaviour.

Modelling conventions:
* `RAGState` (a Python `TypedDict`) is an insertion-ordered association
  list; `dict.get` returns an `Option` (absent keys give `none`).
* The Python object graph of mutable state dicts is a `Store` of state
  records indexed by references (`Ref`); in-place mutation is a `Store`
  write at a reference.
* A Python exception is an `Except.error`; the engine's own
  `RuntimeError("SharedResource not provided.")` is `Err.config`.
* The source runs pure listener handlers and child tasks under `anyio`
  task groups on a single-threaded cooperative scheduler; tasks started
  with `start_soon` run in spawn order once the host awaits the group,
  and the group cancels tasks not yet run when an earlier one raises.
  The model follows exactly that deterministic schedule.
* Recursive execution (`BaseTransform.__call__` re-enters itself through
  children) is given by a fuel-indexed interpreter: `none` means the
  fuel ran out, `some` is the actual outcome of the program.
-/

namespace Srag

/-- Keys of the `RAGState` record. -/
abbrev Key := String

/-- Opaque values stored in a `RAGState`; the engine never inspects them. -/
inductive Val where
  | str (s : String)
  | num (n : Nat)
deriving DecidableEq

/-- `RAGState`: an insertion-ordered key/value record (Python dict). -/
abbrev RAGState := List (Key × Val)

/-- Python `dict.get(k)`: the stored value, or `none` for an absent key;
total, never a lookup failure. -/
def RAGState.get (st : RAGState) (k : Key) : Option Val :=
  match st.find? (fun p => p.1 == k) with
  | some p => some p.2
  | none => none

/-- Python `dict[k] = v`: overwrite in place or append a fresh key. -/
def RAGState.set (st : RAGState) (k : Key) (v : Val) : RAGState :=
  if st.any (fun p => p.1 == k) then st.map (fun p => if p.1 == k then (k, v) else p)
  else st ++ [(k, v)]

/-- A reference to a mutable state object. -/
abbrev Ref := Nat

/-- The heap of live state objects. -/
abbrev Store := List RAGState

/-- Dereference: out-of-store references read as the empty record. -/
def Store.read (σ : Store) (r : Ref) : RAGState := σ.getD r []

/-- In-place mutation of the object behind `r`. -/
def Store.write (σ : Store) (r : Ref) (st : RAGState) : Store := σ.set r st

/-- Allocate a fresh state object. -/
def Store.alloc (σ : Store) (st : RAGState) : Ref × Store := (σ.length, σ ++ [st])

/-- A `TransformListener` (source lines 39-50): two per-step handlers.
A handler observes the transform name and the current state and either
succeeds (`none`) or raises with a message (`some msg`). -/
structure TransformListener where
  onEnter : String → RAGState → Option String
  onExit : String → RAGState → Option String

/-- `SharedResource` (source lines 33-36).  `rid` stands for the object
identity of the bundle, `listeners` is the dispatcher's listener list
(the `llm` handle is opaque to the engine and carried by `rid`). -/
structure SharedResource where
  rid : Nat
  listeners : List TransformListener

/-- How one listener task of a broadcast ended. -/
inductive Outcome where
  | completed
  | failed (msg : String)
  | cancelled
deriving DecidableEq

/-- Index and message of the first failing handler result, if any. -/
def firstFail : List (Option String) → Option (Nat × String)
  | [] => none
  | none :: rest => (firstFail rest).map (fun p => (p.1 + 1, p.2))
  | some m :: _ => some (0, m)

/-- Per-listener outcomes of one broadcast: under the cooperative
schedule, tasks spawned before the first failing one complete, the
failing one fails, later ones are cancelled by the task group. -/
def mkOutcomes (rs : List (Option String)) : List Outcome :=
  match firstFail rs with
  | none => rs.map (fun _ => Outcome.completed)
  | some im =>
    rs.enum.map (fun p =>
      if p.1 < im.1 then Outcome.completed
      else if p.1 = im.1 then Outcome.failed im.2
      else Outcome.cancelled)

/-- Result of one broadcast barrier. -/
structure BRes where
  ocs : List Outcome
  fail : Option String
deriving DecidableEq

/-- `TranformBatchListener._on_event_construct` (source lines 59-67): an
empty listener list returns at once without building a task group;
otherwise every handler is started, the barrier resolves every task
(completed, failed or cancelled) and reports the first failure. -/
def broadcast (hs : List (RAGState → Option String)) (st : RAGState) : BRes :=
  if hs.isEmpty then ⟨[], none⟩
  else
    let rs := hs.map (fun h => h st)
    ⟨mkOutcomes rs, (firstFail rs).map (fun p => p.2)⟩

/-- `input_key`/`output_key` declarations: absent, a single key, or an
ordered key list (source line 80). -/
inductive IKey where
  | noneK
  | one (k : Key)
  | many (ks : List Key)
deriving DecidableEq

/-- Exceptions the engine can surface. -/
inductive Err where
  | config (msg : String)
  | attr
  | listenerFail (msg : String)
  | typeErr
deriving DecidableEq

/-- The per-node record of `BaseTransform.__init__` (source lines
76-94), plus the node's own overridable hooks: `ownT` is the node's
`transform` (state-ref in, result-ref out, possibly mutating or
allocating), `ownS` its `stream_transform` (the list of yielded
state references). -/
structure TransformData where
  name : String
  inputKey : IKey
  outputKey : IKey
  shared : Option SharedResource
  runInParallel : Bool
  inited : Bool
  ownT : Ref → Store → Ref × Store
  ownS : Ref → Store → List Ref × Store

/-- A `BaseTransform` node: its data record, the declared children list
`transforms` (`None` and `[]` are distinct, as in the source), and the
`BaseTransform`-typed attributes found in `self.__dict__` in insertion
order (source line 97). -/
inductive BaseTransform where
  | mk (d : TransformData) (transforms : Option (List BaseTransform))
      (attrs : List BaseTransform)

/-- The node's data record. -/
def BaseTransform.dataF : BaseTransform → TransformData
  | .mk d _ _ => d

/-- The declared children list. -/
def BaseTransform.transformsF : BaseTransform → Option (List BaseTransform)
  | .mk _ ts _ => ts

/-- The `BaseTransform`-typed attributes of the node. -/
def BaseTransform.attrsF : BaseTransform → List BaseTransform
  | .mk _ _ a => a

/-- The node's display name. -/
def BaseTransform.nameF (t : BaseTransform) : String := t.dataF.name

/-- The node's shared-resource reference. -/
def BaseTransform.sharedF (t : BaseTransform) : Option SharedResource := t.dataF.shared

/-- The node's one-shot initialization flag. -/
def BaseTransform.initedF (t : BaseTransform) : Bool := t.dataF.inited

/-- The node's execution-mode flag. -/
def BaseTransform.parF (t : BaseTransform) : Bool := t.dataF.runInParallel

mutual

/-- Number of nodes of the tree (declared children and attributes),
used as the termination measure of tree recursions. -/
def tsize : BaseTransform → Nat
  | .mk _ none attrs => 1 + tsizeL attrs
  | .mk _ (some ts) attrs => 1 + tsizeL ts + tsizeL attrs

/-- Sum of `tsize` over a list, with one extra unit per element. -/
def tsizeL : List BaseTransform → Nat
  | [] => 0
  | t :: ts => 1 + tsize t + tsizeL ts

end

/-- `shared or self.shared` (source line 110): the explicit argument
wins, otherwise the previously assigned resource. -/
def resolveShared (arg own : Option SharedResource) : Option SharedResource :=
  match arg with
  | some s => some s
  | none => own

mutual

/-- `BaseTransform._init` together with `_init_sub_transforms` (source
lines 96-112).  `nn` is the `parentName::childName` rename the parent's
loop assigns at line 102 just before starting the child's `_init`
(`none` for a top-level call); the rename is unconditional, the rest is
a no-op once `_inited`.  Without a resolvable resource `_init` raises;
otherwise it stores the resolved resource and, only when the declared
children list is present, renames and recursively initializes the
attribute transforms and the declared children (when `self._transforms
is None` the attribute scan of line 97 is discarded by line 98 and the
line-99 guard skips the loop), and finally sets `_inited`. -/
def initT (arg : Option SharedResource) (nn : Option String) (t : BaseTransform) : Except Err BaseTransform :=
  match t with
  | .mk d0 ots attrs =>
    let d := match nn with
      | some n => { d0 with name := n }
      | none => d0
    if d.inited then .ok (.mk d ots attrs)
    else
      match resolveShared arg d.shared with
      | none => .error (Err.config ("SharedResource not provided."))
      | some S =>
        match ots with
        | none => .ok (.mk { d with shared := some S, inited := true } none attrs)
        | some ts =>
          match initList d.name S attrs, initList d.name S ts with
          | .ok attrs2, .ok ts2 =>
            .ok (.mk { d with shared := some S, inited := true } (some ts2) attrs2)
          | .error e, _ => .error e
          | .ok _, .error e => .error e

/-- The loop of `_init_sub_transforms` over one sublist of `_to_init`:
rename each child to `parentName::childName`, then run its `_init` with
the parent's resource. -/
def initList (pname : String) (S : SharedResource) (cs : List BaseTransform) : Except Err (List BaseTransform) :=
  match cs with
  | [] => .ok []
  | c :: cs =>
    match initT (some S) (some (pname ++ "::" ++ c.nameF)) c, initList pname S cs with
    | .ok c2, .ok cs2 => .ok (c2 :: cs2)
    | .error e, _ => .error e
    | .ok _, .error e => .error e

end

/-- `BaseTransform._get_input` (source lines 114-118): slice the state
at the declared input keys with `dict.get`; a missing `input_key`
declaration produces the single entry `{None: state.get(None)}`. -/
def getInput (d : TransformData) (st : RAGState) : List (Option Key × Option Val) :=
  match d.inputKey with
  | IKey.many ks => ks.map (fun k => (some k, RAGState.get st k))
  | IKey.one k => [(some k, RAGState.get st k)]
  | IKey.noneK => [(none, none)]

/-- Observable events of one execution, in order of occurrence. -/
inductive Event where
  | listened (ev : String) (node : String) (idx : Nat) (oc : Outcome)
  | childStart (parent : String) (child : String) (r : Ref)
  | ranOwn (node : String) (r : Ref)
  | exited (node : String) (r : Ref)
deriving DecidableEq

/-- One broadcast's outcomes as trace events. -/
def outcomeEvents (ev : String) (node : String) (ocs : List Outcome) : List Event :=
  ocs.enum.map (fun p => Event.listened ev node p.1 p.2)

instance {ε α : Type} [DecidableEq ε] [DecidableEq α] : DecidableEq (Except ε α) := fun a b =>
  match a, b with
  | .ok x, .ok y => decidable_of_iff (x = y) (by simp)
  | .error e, .error f => decidable_of_iff (e = f) (by simp)
  | .ok _, .error _ => isFalse (by simp)
  | .error _, .ok _ => isFalse (by simp)

/-- Outcome of one `__call__`: the returned reference or the exception,
the store after the step, and the event trace. -/
structure CallRes where
  res : Except Err Ref
  store : Store
  tr : List Event
deriving DecidableEq

/-- The type of the recursive executor a step delegates to. -/
abbrev CallFn := BaseTransform → Ref → Store → Option CallRes

/-- Sequential branch of `_run_sub_transforms` (source lines 127-129):
`state = await t.__call__(state)` threads the returned reference; the
first failing child aborts the remaining ones. -/
def seqRun (call : CallFn) (pname : String) : List BaseTransform → Ref → Store → Option CallRes
  | [], r, σ => some ⟨.ok r, σ, []⟩
  | c :: cs, r, σ =>
    match call c r σ with
    | none => none
    | some u =>
      match u.res with
      | .error e => some ⟨.error e, u.store, Event.childStart pname c.nameF r :: u.tr⟩
      | .ok r2 =>
        match seqRun call pname cs r2 u.store with
        | none => none
        | some w => some ⟨w.res, w.store, (Event.childStart pname c.nameF r :: u.tr) ++ w.tr⟩

/-- Parallel branch of `_run_sub_transforms` (source lines 123-126):
every child is started on the same state reference, the returned
references are discarded, and a failing child cancels the children not
yet run. -/
def parRun (call : CallFn) (pname : String) (r : Ref) : List BaseTransform → Store → Option CallRes
  | [], σ => some ⟨.ok r, σ, []⟩
  | c :: cs, σ =>
    match call c r σ with
    | none => none
    | some u =>
      match u.res with
      | .error e => some ⟨.error e, u.store, Event.childStart pname c.nameF r :: u.tr⟩
      | .ok _ =>
        match parRun call pname r cs u.store with
        | none => none
        | some w => some ⟨w.res, w.store, (Event.childStart pname c.nameF r :: u.tr) ++ w.tr⟩

/-- `BaseTransform._run_sub_transforms` (source lines 120-130): `None`
children return the state unchanged; otherwise dispatch on the mode.
In parallel mode the function returns the original `state` reference. -/
def runChildren (call : CallFn) (t : BaseTransform) (r : Ref) (σ : Store) : Option CallRes :=
  match t.transformsF with
  | none => some ⟨.ok r, σ, []⟩
  | some ts =>
    if t.parF then parRun call t.nameF r ts σ
    else seqRun call t.nameF ts r σ

/-- The body of `BaseTransform.__call__` after `_init` succeeded on the
node `t1` holding resource `S`: the `on_transform_enter` barrier, the
children, the node's own `transform` on the child-updated state, the
`on_transform_exit` barrier on that same state, and finally the value
`transform` returned. -/
def callBody (call : CallFn) (t1 : BaseTransform) (S : SharedResource) (r : Ref) (σ : Store) : Option CallRes :=
  let b := broadcast (S.listeners.map (fun l => fun s => l.onEnter t1.nameF s)) (Store.read σ r)
  let evs := outcomeEvents ("on_transform_enter") t1.nameF b.ocs
  match b.fail with
  | some m => some ⟨Except.error (Err.listenerFail m), σ, evs⟩
  | none =>
    match runChildren call t1 r σ with
    | none => none
    | some u =>
      match u.res with
      | .error e => some ⟨Except.error e, u.store, evs ++ u.tr⟩
      | .ok r1 =>
        let p := t1.dataF.ownT r1 u.store
        let b2 := broadcast (S.listeners.map (fun l => fun s => l.onExit t1.nameF s)) (Store.read p.2 r1)
        let evs2 := outcomeEvents ("on_transform_exit") t1.nameF b2.ocs
        match b2.fail with
        | some m =>
          some ⟨Except.error (Err.listenerFail m), p.2,
            evs ++ u.tr ++ [Event.ranOwn t1.nameF r1] ++ evs2⟩
        | none =>
          some ⟨Except.ok p.1, p.2,
            evs ++ u.tr ++ [Event.ranOwn t1.nameF r1] ++ evs2 ++ [Event.exited t1.nameF r1]⟩

/-- One unfolding of `BaseTransform.__call__` (source lines 146-152):
`_init`, then `callBody` with the node's resource (`self.shared` is an
`AttributeError` when still `None` after an early-returning `_init`). -/
def callStep (call : CallFn) (t : BaseTransform) (r : Ref) (σ : Store) : Option CallRes :=
  match initT none none t with
  | .error e => some ⟨.error e, σ, []⟩
  | .ok t1 =>
    match t1.sharedF with
    | none => some ⟨Except.error Err.attr, σ, []⟩
    | some S => callBody call t1 S r σ

/-- The fuel-indexed `BaseTransform.__call__`. -/
def callT : Nat → CallFn
  | 0 => fun _ _ _ => none
  | fuel + 1 => callStep (callT fuel)

/-- Outcome of one `__stream__`: the references yielded so far in
emission order, the exception that ended the generator if any, and the
store afterwards. -/
structure StreamRes where
  ys : List Ref
  err : Option Err
  store : Store
deriving DecidableEq

/-- The type of the recursive stream executor. -/
abbrev StreamFn := BaseTransform → Ref → Store → Option StreamRes

/-- Sequential branch of `_run_sub_streams` (source lines 141-144):
every child generator is drained in order, each on the same state
reference (the loop never rebinds `state`); a failing child ends the
stream after its partial yields. -/
def seqStream (stream : StreamFn) : List BaseTransform → Ref → Store → Option StreamRes
  | [], _, σ => some ⟨[], none, σ⟩
  | c :: cs, r, σ =>
    match stream c r σ with
    | none => none
    | some u =>
      match u.err with
      | some e => some ⟨u.ys, some e, u.store⟩
      | none =>
        match seqStream stream cs r u.store with
        | none => none
        | some w => some ⟨u.ys ++ w.ys, w.err, w.store⟩

/-- One unfolding of `BaseTransform.__stream__` (source lines 154-162)
with `_run_sub_streams` (lines 132-144): enter barrier, child yields
(parallel mode runs the children to completion by `__call__` and yields
the single input reference, lines 135-140), then the node's own
`stream_transform` on the original reference, then the exit barrier. -/
def streamStep (call : CallFn) (stream : StreamFn) (t : BaseTransform) (r : Ref) (σ : Store) : Option StreamRes :=
  match initT none none t with
  | .error e => some ⟨[], some e, σ⟩
  | .ok t1 =>
    match t1.sharedF with
    | none => some ⟨[], some Err.attr, σ⟩
    | some S =>
      let b := broadcast (S.listeners.map (fun l => fun s => l.onEnter t1.nameF s)) (Store.read σ r)
      match b.fail with
      | some m => some ⟨[], some (Err.listenerFail m), σ⟩
      | none =>
        let sub : Option StreamRes :=
          match t1.transformsF with
          | none => some ⟨[], none, σ⟩
          | some ts =>
            if t1.parF then
              match parRun call t1.nameF r ts σ with
              | none => none
              | some u =>
                match u.res with
                | .error e => some ⟨[], some e, u.store⟩
                | .ok _ => some ⟨[r], none, u.store⟩
            else seqStream stream ts r σ
        match sub with
        | none => none
        | some u =>
          match u.err with
          | some e => some ⟨u.ys, some e, u.store⟩
          | none =>
            let q := t1.dataF.ownS r u.store
            let b2 := broadcast (S.listeners.map (fun l => fun s => l.onExit t1.nameF s)) (Store.read q.2 r)
            match b2.fail with
            | some m => some ⟨u.ys ++ q.1, some (Err.listenerFail m), q.2⟩
            | none => some ⟨u.ys ++ q.1, none, q.2⟩

/-- The fuel-indexed `BaseTransform.__stream__`. -/
def streamT : Nat → StreamFn
  | 0 => fun _ _ _ => none
  | fuel + 1 => streamStep (callT fuel) (streamT fuel)

/-- The externally visible result of a `BasePipeline` call. -/
inductive PipeOut where
  | state (s : RAGState)
  | val (v : Option Val)
deriving DecidableEq

/-- `BasePipeline.transform` (source lines 198-199): the full state when
`return_state`, otherwise `state.get(self.output_key)`; a list-valued
`output_key` is unhashable and `dict.get` raises `TypeError` on it. -/
def projectOut (st : RAGState) : IKey → Except Err PipeOut
  | IKey.one k => .ok (.val (RAGState.get st k))
  | IKey.noneK => .ok (.val none)
  | IKey.many _ => .error Err.typeErr

/-- `BasePipeline.__call__` (source lines 195-196): wrap the named
fields into a fresh state object, run the tree on it, and project the
result per `return_state`.  The root's own `transform` hook is the
identity on the state reference, so the projection of the final state
is applied to the reference the tree returns. -/
def pipelineRun (fuel : Nat) (root : BaseTransform) (returnState : Bool) (st : RAGState) : Option (Except Err PipeOut) :=
  match callT fuel root 0 [st] with
  | none => none
  | some u =>
    match u.res with
    | .error e => some (.error e)
    | .ok rf =>
      if returnState then some (.ok (.state (Store.read u.store rf)))
      else some (projectOut (Store.read u.store rf) root.dataF.outputKey)

/-- `BasePipeline.stream` (source lines 201-203): stream the tree on a
fresh state object built from the named fields. -/
def pipelineStream (fuel : Nat) (root : BaseTransform) (st : RAGState) : Option StreamRes :=
  streamT fuel root 0 [st]

/-- `run` with the tree's raw result, before `BasePipeline.transform`
projection: used to state whole-tree properties of `__call__`. -/
def runPipeline (fuel : Nat) (root : BaseTransform) (st : RAGState) : Option CallRes :=
  callT fuel root 0 [st]

/-! ### Concrete nodes used in the scenario theorems -/

/-- A resource bundle with no listeners. -/
def emptyRes (n : Nat) : SharedResource := ⟨n, []⟩

/-- A node whose own hooks are the defaults of `BaseTransform`
(`transform` is the identity, `stream_transform` yields it once). -/
def mkNode (nm : String) (sh : Option SharedResource) (ini : Bool)
    (ots : Option (List BaseTransform)) (attrs : List BaseTransform) : BaseTransform :=
  .mk { name := nm, inputKey := IKey.noneK, outputKey := IKey.one ("response"),
        shared := sh, runInParallel := false, inited := ini,
        ownT := fun r σ => (r, σ), ownS := fun r σ => ([r], σ) } ots attrs

/-- Same as `mkNode` but in parallel mode. -/
def mkParNode (nm : String) (sh : Option SharedResource) (ini : Bool)
    (ots : Option (List BaseTransform)) : BaseTransform :=
  .mk { name := nm, inputKey := IKey.noneK, outputKey := IKey.one ("response"),
        shared := sh, runInParallel := true, inited := ini,
        ownT := fun r σ => (r, σ), ownS := fun r σ => ([r], σ) } ots []

/-- First snapshot of the generation scenario. -/
def c2s1 (st : RAGState) : RAGState := RAGState.set st ("response") (Val.str ("h"))

/-- Second snapshot of the generation scenario. -/
def c2s2 (st : RAGState) : RAGState := RAGState.set st ("response") (Val.str ("hi"))

/-- Final snapshot of the generation scenario. -/
def c2s3 (st : RAGState) : RAGState := RAGState.set st ("response") (Val.str ("hi!"))

/-- The streaming leaf: its `stream_transform` mutates the state in
three steps, yielding a snapshot of each, and leaves the final text on
the state; its `transform` performs the same final mutation. -/
def c2leaf : BaseTransform :=
  .mk { name := "Gen", inputKey := IKey.one ("query"), outputKey := IKey.one ("response"),
        shared := none, runInParallel := false, inited := false,
        ownT := fun r σ => (r, Store.write σ r (c2s3 (Store.read σ r))),
        ownS := fun r σ =>
          let s := Store.read σ r
          ([σ.length, σ.length + 1, σ.length + 2],
            Store.write (σ ++ [c2s1 s, c2s2 s, c2s3 s]) r (c2s3 s)) } none []

/-- The pipeline of the streaming scenario: one leaf, no listeners. -/
def c2root : BaseTransform :=
  .mk { name := "BasePipeline", inputKey := IKey.many ["query", "history", "doc_ids"],
        outputKey := IKey.one ("response"), shared := some (emptyRes 0),
        runInParallel := false, inited := false,
        ownT := fun r σ => (r, σ), ownS := fun r σ => ([r], σ) } (some [c2leaf]) []

/-- The input state `{query: "hi"}`. -/
def c2state : RAGState := [("query", Val.str ("hi"))]

/-- A `BaseTransform`-typed attribute node, as `PromptAgent.genration`
in src/srag/agent/agent.py. -/
def c1attr : BaseTransform := mkNode ("A") none false none []

/-- A node embedding `c1attr` as an attribute with no declared children
list (`transforms=None`). -/
def c1parent : BaseTransform := mkNode ("P") none false none [c1attr]

/-- The same node with an empty declared children list
(`transforms=[]`). -/
def c1parentEmpty : BaseTransform := mkNode ("P") none false (some []) [c1attr]

/-- A leaf whose `transform` only mutates the state in place by `f` and
returns the same reference (a child with no side effects beyond state
mutation). -/
def mutLeaf (nm : String) (R : SharedResource) (f : RAGState → RAGState) : BaseTransform :=
  .mk { name := nm, inputKey := IKey.noneK, outputKey := IKey.one ("response"),
        shared := some R, runInParallel := false, inited := true,
        ownT := fun r σ => (r, Store.write σ r (f (Store.read σ r))),
        ownS := fun r σ => ([r], σ) } none []

/-- A `BasePipeline` root with sequential children: pass-through own
hooks, projection key `response`. -/
def seqPipe (R : SharedResource) (cs : List BaseTransform) : BaseTransform :=
  .mk { name := "BasePipeline", inputKey := IKey.many ["query", "history", "doc_ids"],
        outputKey := IKey.one ("response"), shared := some R, runInParallel := false,
        inited := true, ownT := fun r σ => (r, σ), ownS := fun r σ => ([r], σ) } (some cs) []

/-- A listener whose two handlers are no-ops. -/
def okListener : TransformListener := ⟨fun _ _ => none, fun _ _ => none⟩

/-- A listener that raises on `on_transform_enter`. -/
def boomListener : TransformListener := ⟨fun _ _ => some ("boom"), fun _ _ => none⟩

/-- A resource carrying one healthy and one failing listener. -/
def c5res : SharedResource := ⟨3, [okListener, boomListener]⟩

/-- A child under the failing-listener node. -/
def c5child : BaseTransform := mkNode ("Child") (some c5res) true none []

/-- An initialized node with one child and the failing listener set. -/
def c5node : BaseTransform := mkNode ("Node") (some c5res) true (some [c5child]) []

/-- A `TransformData` declaring the single input key `nonexistent`. -/
def c7data : TransformData :=
  { name := "Probe", inputKey := IKey.many ["nonexistent"], outputKey := IKey.one ("response"),
    shared := none, runInParallel := false, inited := true,
    ownT := fun r σ => (r, σ), ownS := fun r σ => ([r], σ) }

/-- A child whose `transform` returns a freshly allocated copy of the
state instead of the reference it received. -/
def c9kid (nm : String) : BaseTransform :=
  .mk { name := nm, inputKey := IKey.noneK, outputKey := IKey.one ("response"),
        shared := some (emptyRes 0), runInParallel := false, inited := true,
        ownT := fun r σ => (σ.length, σ ++ [Store.read σ r]),
        ownS := fun r σ => ([r], σ) } none []

/-- A parallel node with two allocating children. -/
def c9par : BaseTransform := mkParNode ("Par") (some (emptyRes 0)) true (some [c9kid ("K1"), c9kid ("K2")])

/-- A leaf whose `transform` writes its output into a freshly allocated
state object and returns that new reference. -/
def c10node : BaseTransform :=
  .mk { name := "Fresh", inputKey := IKey.noneK, outputKey := IKey.one ("response"),
        shared := some (emptyRes 0), runInParallel := false, inited := true,
        ownT := fun r σ => (σ.length, σ ++ [RAGState.set (Store.read σ r) ("response") (Val.str ("out"))]),
        ownS := fun r σ => ([r], σ) } none []

/-- A fresh three-level chain for the initialization theorems. -/
def c4child : BaseTransform := mkNode ("C") none false none []

/-- Middle node of the chain. -/
def c4mid : BaseTransform := mkNode ("M") none false (some [c4child]) []

/-- Root of the chain, not yet initialized, no resource assigned. -/
def c4tree : BaseTransform := mkNode ("P") none false (some [c4mid]) []

/-- The resource handed to the first `initialize` call. -/
def c4res : SharedResource := emptyRes 9

/-- The chain after its first initialization: renamed once, every node
initialized and holding `c4res`. -/
def c4expected : BaseTransform :=
  mkNode ("P") (some c4res) true
    (some [mkNode ("P::M") (some c4res) true
      (some [mkNode ("P::M::C") (some c4res) true none []]) []]) []

mutual

/-- The node and all its transforms-descendants (the tree of §3 of the
spec: the declared children lists), in preorder. -/
def nodesList : BaseTransform → List BaseTransform
  | .mk d none attrs => [.mk d none attrs]
  | .mk d (some ts) attrs => .mk d (some ts) attrs :: nodesListL ts

/-- `nodesList` over a children list. -/
def nodesListL : List BaseTransform → List BaseTransform
  | [] => []
  | t :: ts => nodesList t ++ nodesListL ts

end

/-- The resource with its listener list emptied. -/
def stripRes (R : SharedResource) : SharedResource := { R with listeners := [] }

/-- Empty the listener list of a node's resource slot. -/
def stripD (d : TransformData) : TransformData := { d with shared := d.shared.map stripRes }

mutual

/-- The same pipeline with every listener list emptied. -/
def stripT : BaseTransform → BaseTransform
  | .mk d ots attrs => .mk (stripD d) (stripO ots) (stripL attrs)

/-- `stripT` through an optional children list. -/
def stripO : Option (List BaseTransform) → Option (List BaseTransform)
  | none => none
  | some ts => some (stripL ts)

/-- `stripT` over a list of nodes. -/
def stripL : List BaseTransform → List BaseTransform
  | [] => []
  | t :: ts => stripT t :: stripL ts

end

/-- A listener both of whose handlers always succeed (no-op handlers). -/
def noopL (l : TransformListener) : Prop :=
  ∀ n s, l.onEnter n s = none ∧ l.onExit n s = none

/-- Every listener of a (possibly absent) resource is a no-op. -/
def noopShared : Option SharedResource → Prop
  | none => True
  | some R => ∀ l ∈ R.listeners, noopL l

mutual

/-- Every listener reachable through the node or its declared children
is a no-op. -/
def allNoop : BaseTransform → Prop
  | .mk d ots _ => noopShared d.shared ∧ allNoopO ots

/-- `allNoop` through an optional children list. -/
def allNoopO : Option (List BaseTransform) → Prop
  | none => True
  | some ts => allNoopL ts

/-- `allNoop` over a list of nodes. -/
def allNoopL : List BaseTransform → Prop
  | [] => True
  | t :: ts => allNoop t ∧ allNoopL ts

end

/-- A pipeline with one no-op listener: root with one leaf child. -/
def c8tree : BaseTransform :=
  mkNode ("P8") (some ⟨1, [okListener]⟩) false (some [mkNode ("C8") none false none []]) []

/-- The computed part of a step's outcome: result and store, without
the notification trace. -/
def projRS (o : Option CallRes) : Option (Except Err Ref × Store) :=
  o.map (fun u => (u.res, u.store))

/-! ### Theorems -/

/-- After a successful `_init`, the shared slot is filled. -/
theorem initT_inited (arg : Option SharedResource) (t : BaseTransform)
    (h : t.initedF = true) : initT arg none t = .ok t := by
  rcases t with ⟨⟨nm, ik, ok2, sh, par, ini, oT, oS⟩, ots, attrs⟩
  simp [BaseTransform.initedF, BaseTransform.dataF] at h
  subst h
  rfl

/-- C1: the source scans `self.__dict__` for `BaseTransform`-typed
attributes, but line 98 (`_to_init = _to_init + self._transforms if
self._transforms is not None else []`) discards the scan and line 99
skips the loop whenever the declared children list is absent, so with
`transforms=None` the attribute child is neither renamed, nor
initialized, nor given the resource — while with `transforms=[]` the
very same attribute child is renamed to `P::A` and initialized.  This
contradicts the claimed behaviour (and breaks `PromptAgent`, whose
embedded `genration` transform relies on attribute initialization). -/
theorem c1_attr_children_only_with_declared_list :
    ((initT (some (emptyRes 7)) none c1parent).toOption.map
      (fun u => (u.initedF, u.attrsF.map (fun a => (a.nameF, a.initedF, a.sharedF.isSome))))
        = some (true, [("A", false, false)]))
  ∧ ((initT (some (emptyRes 7)) none c1parentEmpty).toOption.map
      (fun u => (u.initedF, u.attrsF.map (fun a => (a.nameF, a.initedF, a.sharedF.isSome))))
        = some (true, [("P::A", true, true)])) := by
  constructor <;> rfl

/-- C2, counterexample: the streaming entry point on the pipeline of
one leaf whose `stream_transform` yields 3 states for `{query: "hi"}`
does not yield exactly 3 states — `BasePipeline.stream_transform`
(source lines 205-206) appends a fourth, root-level yield of the state
object after the leaf's three. -/
theorem c2_stream_counterexample :
    ¬ ((pipelineStream 5 c2root c2state).map (fun u => u.ys.length) = some 3) := by
  decide

/-- C2, amended: the streaming entry point yields the leaf's 3 states
in emission order followed by one root-level pass-through snapshot of
the state object (4 yields in total, the 4th showing the final
contents); the non-streaming `run` with `return_state` returns exactly
the last of the leaf's states, and by default it returns that state's
projected `response` field. -/
theorem c2_stream_amended :
    ((pipelineStream 5 c2root c2state).map (fun u => (u.ys, u.err)) = some ([1, 2, 3, 0], none))
  ∧ ((pipelineStream 5 c2root c2state).map (fun u => u.ys.map (fun r => Store.read u.store r))
      = some [[("query", Val.str ("hi")), ("response", Val.str ("h"))],
              [("query", Val.str ("hi")), ("response", Val.str ("hi"))],
              [("query", Val.str ("hi")), ("response", Val.str ("hi!"))],
              [("query", Val.str ("hi")), ("response", Val.str ("hi!"))]])
  ∧ (pipelineRun 5 c2root true c2state
      = some (Except.ok (PipeOut.state [("query", Val.str ("hi")), ("response", Val.str ("hi!"))])))
  ∧ (pipelineRun 5 c2root false c2state
      = some (Except.ok (PipeOut.val (some (Val.str ("hi!")))))) := by
  refine ⟨?_, ?_, ?_, ?_⟩ <;> rfl

/-- The broadcast barrier resolves one outcome per listener. -/
theorem length_mkOutcomes (rs : List (Option String)) : (mkOutcomes rs).length = rs.length := by
  unfold mkOutcomes
  cases firstFail rs <;> simp [List.enum_length]

/-- Outcome events are listener events only. -/
theorem mem_outcomeEvents {ev nd : String} {ocs : List Outcome} {e : Event}
    (h : e ∈ outcomeEvents ev nd ocs) : ∃ j oc, e = Event.listened ev nd j oc := by
  unfold outcomeEvents at h
  simp only [List.mem_map] at h
  obtain ⟨⟨j, oc⟩, _, rfl⟩ := h
  exact ⟨j, oc, rfl⟩

/-- A failing handler means a nonempty handler list. -/
theorem firstFail_ne_nil {rs : List (Option String)} {p : Nat × String}
    (h : firstFail rs = some p) : rs ≠ [] := by
  intro h0
  rw [h0] at h
  simp [firstFail] at h

/-- C7: reading a key absent from the state — also through a node's
declared input keys as `_get_input` does — produces the explicit absent
marker `none`: `dict.get` is total and never raises a lookup failure. -/
theorem c7_absent_key_reads (st : RAGState) (k : Key) (d : TransformData) (ks : List Key)
    (habs : ∀ p ∈ st, p.1 ≠ k) (hik : d.inputKey = IKey.many ks) (hk : k ∈ ks) :
    RAGState.get st k = none ∧ (some k, (none : Option Val)) ∈ getInput d st := by
  have hnone : st.find? (fun p => p.1 == k) = none := by
    rw [List.find?_eq_none]
    intro x hx
    simpa using habs x hx
  have hget : RAGState.get st k = none := by
    simp [RAGState.get, hnone]
  refine ⟨hget, ?_⟩
  simp only [getInput, hik, List.mem_map]
  exact ⟨k, hk, by rw [hget]⟩

/-- Witness for C7: a node declaring input key `nonexistent` reading
from `{query: "hi"}`. -/
theorem c7_witness :
    RAGState.get c2state ("nonexistent") = none ∧
      (some ("nonexistent"), (none : Option Val)) ∈ getInput c7data c2state :=
  c7_absent_key_reads c2state ("nonexistent") c7data ["nonexistent"]
    (by decide) rfl (by decide)

/-- After a successful `_init` yielding `t1` with resource `S`, a step
is exactly `callBody`. -/
theorem callStep_eq_body (call : CallFn) (t t1 : BaseTransform) (S : SharedResource)
    (r : Ref) (σ : Store) (hinit : initT none none t = Except.ok t1)
    (hsh : t1.sharedF = some S) :
    callStep call t r σ = callBody call t1 S r σ := by
  unfold callStep
  split
  · next e heq => rw [hinit] at heq; cases heq
  · next t2 heq =>
    rw [hinit] at heq
    obtain rfl : t2 = t1 := ((Except.ok.injEq _ _).mp heq).symm
    split
    · next h2 => rw [hsh] at h2; cases h2
    · next S2 h2 =>
      rw [hsh] at h2
      obtain rfl : S2 = S := ((Option.some.injEq _ _).mp h2).symm
      rfl

/-- C5: when any listener fails during the `on_transform_enter`
broadcast of a step, the step returns that failure with the store
untouched — the node's children and its own `transform` never execute —
and its whole trace is the resolved outcome of the enter barrier: one
outcome per listener (completed before the failing index, failed at it,
cancelled after it), so the failure surfaces only once the barrier has
resolved every listener task. -/
theorem c5_enter_failure_blocks_step (call : CallFn) (t : BaseTransform) (r : Ref) (σ : Store)
    (S : SharedResource) (i : Nat) (m : String)
    (hin : t.initedF = true) (hsh : t.sharedF = some S)
    (hfail : firstFail (S.listeners.map (fun l => l.onEnter t.nameF (Store.read σ r)))
      = some (i, m)) :
    (callStep call t r σ = some ⟨Except.error (Err.listenerFail m), σ,
        outcomeEvents ("on_transform_enter") t.nameF
          (mkOutcomes (S.listeners.map (fun l => l.onEnter t.nameF (Store.read σ r))))⟩)
    ∧ (mkOutcomes (S.listeners.map (fun l => l.onEnter t.nameF (Store.read σ r)))).length
        = S.listeners.length
    ∧ ∀ e ∈ outcomeEvents ("on_transform_enter") t.nameF
          (mkOutcomes (S.listeners.map (fun l => l.onEnter t.nameF (Store.read σ r)))),
        ∃ j oc, e = Event.listened ("on_transform_enter") t.nameF j oc := by
  have hsl : S.listeners ≠ [] := by
    have := firstFail_ne_nil hfail
    intro h0
    exact this (by simp [h0])
  refine ⟨?_, by rw [length_mkOutcomes, List.length_map], fun e he => mem_outcomeEvents he⟩
  rw [callStep_eq_body call t t S r σ (initT_inited none t hin) hsh]
  have hemp : (S.listeners.map (fun l => fun s => l.onEnter t.nameF s)).isEmpty = false := by
    rw [List.isEmpty_eq_false]
    simpa using hsl
  have hb : broadcast (S.listeners.map (fun l => fun s => l.onEnter t.nameF s)) (Store.read σ r)
      = ⟨mkOutcomes (S.listeners.map (fun l => l.onEnter t.nameF (Store.read σ r))), some m⟩ := by
    unfold broadcast
    rw [hemp]
    have hcomp : (S.listeners.map (fun l => fun s => l.onEnter t.nameF s)).map
        (fun h => h (Store.read σ r)) = S.listeners.map (fun l => l.onEnter t.nameF (Store.read σ r)) := by
      rw [List.map_map]
      rfl
    simp only [if_false, hcomp, hfail]
    rfl
  unfold callBody
  rw [hb]

/-- Witness for C5: two listeners, the second failing on enter, over an
initialized node with one child. -/
theorem c5_witness :
    (callStep (callT 3) c5node 0 [[]] = some ⟨Except.error (Err.listenerFail ("boom")), [[]],
        outcomeEvents ("on_transform_enter") (c5node.nameF)
          (mkOutcomes (c5res.listeners.map (fun l => l.onEnter c5node.nameF (Store.read [[]] 0))))⟩)
    ∧ (mkOutcomes (c5res.listeners.map (fun l => l.onEnter c5node.nameF (Store.read [[]] 0)))).length
        = c5res.listeners.length
    ∧ ∀ e ∈ outcomeEvents ("on_transform_enter") (c5node.nameF)
          (mkOutcomes (c5res.listeners.map (fun l => l.onEnter c5node.nameF (Store.read [[]] 0)))),
        ∃ j oc, e = Event.listened ("on_transform_enter") (c5node.nameF) j oc :=
  c5_enter_failure_blocks_step (callT 3) c5node 0 [[]] c5res 1 ("boom") rfl rfl (by rfl)

/-- `parRun` hands every child the same reference and, on success,
reports the original reference. -/
theorem parRun_ok_ref (call : CallFn) (pname : String) (r : Ref) :
    ∀ (cs : List BaseTransform) (σ : Store) (u : CallRes) (r2 : Ref),
      parRun call pname r cs σ = some u → u.res = Except.ok r2 →
      r2 = r ∧ ∀ c ∈ cs, Event.childStart pname c.nameF r ∈ u.tr := by
  intro cs
  induction cs with
  | nil =>
    intro σ u r2 h hok
    simp only [parRun, Option.some.injEq] at h
    subst h
    simp only at hok
    obtain rfl : r = r2 := (Except.ok.injEq _ _).mp hok
    exact ⟨rfl, by simp⟩
  | cons c cs ih =>
    intro σ u r2 h hok
    simp only [parRun] at h
    split at h
    · cases h
    · next v hv =>
      split at h
      · next e he =>
        simp only [Option.some.injEq] at h
        subst h
        simp only at hok
        cases hok
      · next r3 hr3 =>
        split at h
        · cases h
        · next w hw =>
          simp only [Option.some.injEq] at h
          subst h
          simp only at hok
          obtain ⟨hr, hmem⟩ := ih v.store w r2 hw hok
          refine ⟨hr, ?_⟩
          intro c2 hc2
          rcases List.mem_cons.mp hc2 with rfl | hc2
          · simp
          · simp only [List.cons_append, List.mem_cons, List.mem_append]
            exact Or.inr (Or.inr (hmem c2 hc2))

/-- C9: in parallel mode `_run_sub_transforms` starts every child on
the same state reference, discards the references the children return,
and on success hands the node's own `transform` the original input
reference. -/
theorem c9_parallel_same_ref_discard (call : CallFn) (t : BaseTransform)
    (ts : List BaseTransform) (r r2 : Ref) (σ : Store) (u : CallRes)
    (hpar : t.parF = true) (hts : t.transformsF = some ts)
    (h : runChildren call t r σ = some u) (hok : u.res = Except.ok r2) :
    r2 = r ∧ ∀ c ∈ ts, Event.childStart t.nameF c.nameF r ∈ u.tr := by
  unfold runChildren at h
  split at h
  · next h0 => rw [hts] at h0; cases h0
  · next ts2 h0 =>
    rw [hts] at h0
    obtain rfl : ts = ts2 := (Option.some.injEq _ _).mp h0
    rw [hpar] at h
    simp only [if_true] at h
    exact parRun_ok_ref call t.nameF r ts σ u r2 h hok

/-- Witness for C9: a parallel node with two children whose `transform`
returns a fresh reference; the step still reports reference 0 and both
children were started on reference 0. -/
theorem c9_witness :
    (0 : Ref) = 0 ∧ ∀ c ∈ [c9kid ("K1"), c9kid ("K2")],
      Event.childStart ("Par") c.nameF 0 ∈
        [Event.childStart ("Par") ("K1") 0, Event.ranOwn ("K1") 0, Event.exited ("K1") 0,
         Event.childStart ("Par") ("K2") 0, Event.ranOwn ("K2") 0, Event.exited ("K2") 0] :=
  c9_parallel_same_ref_discard (callT 2) c9par [c9kid ("K1"), c9kid ("K2")] 0 0 [[]]
    ⟨Except.ok 0, [[], [], []],
      [Event.childStart ("Par") ("K1") 0, Event.ranOwn ("K1") 0, Event.exited ("K1") 0,
       Event.childStart ("Par") ("K2") 0, Event.ranOwn ("K2") 0, Event.exited ("K2") 0]⟩
    rfl rfl (by rfl) rfl

/-- With no listeners registered, a successful child phase makes the
step return exactly the node's own `transform` output while the exit
event records the reference `transform` received. -/
theorem callBody_ok_no_listeners (call : CallFn) (t1 : BaseTransform)
    (S : SharedResource) (r r1 : Ref) (σ : Store) (u : CallRes)
    (hls : S.listeners = [])
    (hrc : runChildren call t1 r σ = some u) (hok : u.res = Except.ok r1) :
    callBody call t1 S r σ = some ⟨Except.ok (t1.dataF.ownT r1 u.store).1,
      (t1.dataF.ownT r1 u.store).2,
      u.tr ++ [Event.ranOwn t1.nameF r1, Event.exited t1.nameF r1]⟩ := by
  unfold callBody
  rw [hls]
  have hb : ∀ st, broadcast ([] : List (RAGState → Option String)) st = ⟨[], none⟩ := fun _ => rfl
  simp only [List.map_nil, hb, outcomeEvents, List.enum_nil]
  split
  · next h0 => rw [hrc] at h0; cases h0
  · next u2 h0 =>
    rw [hrc] at h0
    obtain rfl : u = u2 := (Option.some.injEq _ _).mp h0
    split
    · next e he => rw [hok] at he; cases he
    · next r3 hr3 =>
      rw [hok] at hr3
      obtain rfl : r1 = r3 := (Except.ok.injEq _ _).mp hr3
      simp

/-- C10: `__call__` broadcasts `on_transform_exit` with the very state
reference it handed the node's own `transform` (the child-updated
state), not with the reference `transform` returned, yet the step's
result is `transform`'s return value — so whenever `transform` returns
a different object, exit listeners observe a state different from the
step's result. -/
theorem c10_exit_sees_transform_input (call : CallFn) (t t1 : BaseTransform)
    (S : SharedResource) (r r1 : Ref) (σ : Store) (u : CallRes)
    (hinit : initT none none t = Except.ok t1)
    (hsh : t1.sharedF = some S) (hls : S.listeners = [])
    (hrc : runChildren call t1 r σ = some u) (hok : u.res = Except.ok r1) :
    callStep call t r σ = some ⟨Except.ok (t1.dataF.ownT r1 u.store).1,
      (t1.dataF.ownT r1 u.store).2,
      u.tr ++ [Event.ranOwn t1.nameF r1, Event.exited t1.nameF r1]⟩ := by
  rw [callStep_eq_body call t t1 S r σ hinit hsh]
  exact callBody_ok_no_listeners call t1 S r r1 σ u hls hrc hok

/-- `_init` with an explicit resource in hand never raises: the only
raise site is the resource check, and every recursive child call
receives the parent's resolved resource. -/
theorem initT_some_ok : ∀ (n : Nat) (t : BaseTransform), tsize t ≤ n →
    ∀ (S : SharedResource) (nn : Option String), ∃ u, initT (some S) nn t = Except.ok u := by
  intro n
  induction n with
  | zero =>
    intro t ht
    exfalso
    rcases t with ⟨d, ots, attrs⟩
    cases ots <;> simp [tsize] at ht
  | succ n ih =>
    intro t ht S nn
    have hlist : ∀ (cs : List BaseTransform), tsizeL cs ≤ n → ∀ p,
        ∃ us, initList p S cs = Except.ok us := by
      intro cs
      induction cs with
      | nil => intro _ p; exact ⟨[], rfl⟩
      | cons c cs ihc =>
        intro hcs p
        simp only [tsizeL] at hcs
        obtain ⟨c2, hc2⟩ := ih c (by omega) S (some (p ++ "::" ++ c.nameF))
        obtain ⟨cs2, hcs2⟩ := ihc (by omega) p
        refine ⟨c2 :: cs2, ?_⟩
        unfold initList
        rw [hc2, hcs2]
    rcases t with ⟨d, ots, attrs⟩
    rcases nn with _ | nm
    all_goals cases hi : d.inited
    · -- nn = none, not yet initialized
      cases ots with
      | none =>
        exact ⟨.mk { d with shared := some S, inited := true } none attrs, by
          unfold initT
          simp [hi, resolveShared]⟩
      | some ts =>
        simp only [tsize] at ht
        obtain ⟨attrs2, ha2⟩ := hlist attrs (by omega) d.name
        obtain ⟨ts2, hts2⟩ := hlist ts (by omega) d.name
        exact ⟨.mk { d with shared := some S, inited := true } (some ts2) attrs2, by
          unfold initT
          simp [hi, resolveShared, ha2, hts2]⟩
    · -- nn = none, already initialized
      exact ⟨.mk d ots attrs, by unfold initT; simp [hi]⟩
    · -- nn = some nm, not yet initialized
      cases ots with
      | none =>
        exact ⟨.mk { d with name := nm, shared := some S, inited := true } none attrs, by
          unfold initT
          simp [hi, resolveShared]⟩
      | some ts =>
        simp only [tsize] at ht
        obtain ⟨attrs2, ha2⟩ := hlist attrs (by omega) nm
        obtain ⟨ts2, hts2⟩ := hlist ts (by omega) nm
        exact ⟨.mk { d with name := nm, shared := some S, inited := true } (some ts2) attrs2, by
          unfold initT
          simp [hi, resolveShared, ha2, hts2]⟩
    · -- nn = some nm, already initialized
      exact ⟨.mk { d with name := nm } ots attrs, by unfold initT; simp [hi]⟩

/-- `_init_sub_transforms`'s loop never raises when the parent's
resolved resource is in hand. -/
theorem initList_ok (S : SharedResource) : ∀ (cs : List BaseTransform) (p : String),
    ∃ us, initList p S cs = Except.ok us := by
  intro cs
  induction cs with
  | nil => intro p; exact ⟨[], rfl⟩
  | cons c cs ihc =>
    intro p
    obtain ⟨c2, hc2⟩ := initT_some_ok (tsize c) c le_rfl S (some (p ++ "::" ++ c.nameF))
    obtain ⟨cs2, hcs2⟩ := ihc p
    exact ⟨c2 :: cs2, by unfold initList; rw [hc2, hcs2]⟩

/-- C6: for a node not yet initialized, `_init` fails — with the
`ConfigurationError` of the spec's taxonomy, the source's
`RuntimeError("SharedResource not provided.")` — exactly when neither
an explicit resource argument nor a previously assigned resource is
available; whenever a resource resolves, `_init` returns successfully
(in particular an already-initialized node never raises, its resource
having been assigned on the first call); and no other error is ever
raised by initialization. -/
theorem c6_config_error_iff (arg : Option SharedResource) (t : BaseTransform) :
    (t.initedF = false →
      ((initT arg none t = Except.error (Err.config ("SharedResource not provided."))) ↔
        (t.sharedF = none ∧ arg = none)))
    ∧ (∀ S, resolveShared arg t.sharedF = some S → ∃ u, initT arg none t = Except.ok u)
    ∧ (∀ e, initT arg none t = Except.error e →
        e = Err.config ("SharedResource not provided.")) := by
  rcases t with ⟨d, ots, attrs⟩
  simp only [BaseTransform.initedF, BaseTransform.sharedF, BaseTransform.dataF]
  cases hi : d.inited
  · cases hr : resolveShared arg d.shared with
    | none =>
      have herr : initT arg none (.mk d ots attrs) =
          Except.error (Err.config ("SharedResource not provided.")) := by
        unfold initT
        simp [hi, hr]
      have hcond : d.shared = none ∧ arg = none := by
        cases harg : arg with
        | none =>
          cases hsh : d.shared with
          | none => exact ⟨rfl, rfl⟩
          | some s => rw [harg, hsh] at hr; simp [resolveShared] at hr
        | some s => rw [harg] at hr; simp [resolveShared] at hr
      refine ⟨fun _ => ⟨fun _ => hcond, fun _ => herr⟩, ?_, ?_⟩
      · intro S hS
        cases hS
      · intro e he
        rw [herr] at he
        exact ((Except.error.injEq _ _).mp he).symm
    | some S =>
      have hok : ∃ u, initT arg none (.mk d ots attrs) = Except.ok u := by
        cases ots with
        | none =>
          exact ⟨.mk { d with shared := some S, inited := true } none attrs, by
            unfold initT
            simp [hi, hr]⟩
        | some ts =>
          obtain ⟨attrs2, ha2⟩ := initList_ok S attrs d.name
          obtain ⟨ts2, hts2⟩ := initList_ok S ts d.name
          exact ⟨.mk { d with shared := some S, inited := true } (some ts2) attrs2, by
            unfold initT
            simp [hi, hr, ha2, hts2]⟩
      obtain ⟨u, hu⟩ := hok
      refine ⟨fun _ => ⟨fun h => ?_, fun h => ?_⟩, fun S2 _ => ⟨u, hu⟩, fun e he => ?_⟩
      · rw [hu] at h; cases h
      · obtain ⟨h1, h2⟩ := h
        rw [h1, h2] at hr
        simp [resolveShared] at hr
      · rw [hu] at he; cases he
  · have hok : initT arg none (.mk d ots attrs) = Except.ok (.mk d ots attrs) := by
      unfold initT
      simp [hi]
    refine ⟨fun h => absurd h (by simp), fun S2 _ => ⟨.mk d ots attrs, hok⟩, fun e he => ?_⟩
    rw [hok] at he
    cases he

/-- Witness for C10: a leaf whose `transform` allocates reference 1;
the exit event still records reference 0 while the result is 1. -/
theorem c10_witness :
    callStep (callT 1) c10node 0 [c2state] = some ⟨Except.ok 1,
      [c2state, RAGState.set c2state ("response") (Val.str ("out"))],
      [Event.ranOwn ("Fresh") 0, Event.exited ("Fresh") 0]⟩ :=
  c10_exit_sees_transform_input (callT 1) c10node c10node (emptyRes 0) 0 0 [c2state]
    ⟨Except.ok 0, [c2state], []⟩ rfl rfl rfl (by rfl) rfl

/-- Witness for C6: a fresh node with no resource anywhere fails with
the configuration error. -/
theorem c6_witness :
    initT none none (mkNode ("Lone") none false none []) =
      Except.error (Err.config ("SharedResource not provided.")) :=
  ((c6_config_error_iff none (mkNode ("Lone") none false none [])).1 rfl).mpr ⟨rfl, rfl⟩

/-- Writing then reading the same live reference gives the new value. -/
theorem store_read_write : ∀ (σ : Store) (r : Ref) (x : RAGState), r < σ.length →
    Store.read (Store.write σ r x) r = x := by
  intro σ
  induction σ with
  | nil => intro r x hr; simp at hr
  | cons a σ ih =>
    intro r x hr
    cases r with
    | zero => rfl
    | succ r => exact ih r x (by simpa using hr)

/-- Writing preserves the store's extent. -/
theorem store_write_length (σ : Store) (r : Ref) (x : RAGState) :
    (Store.write σ r x).length = σ.length := by
  simp [Store.write]

/-- One `__call__` of a mutation-only leaf: mutate in place, return the
same reference. -/
theorem callT_mutLeaf (fuel : Nat) (nm : String) (rid : Nat) (f : RAGState → RAGState)
    (r : Ref) (σ : Store) :
    callT (fuel + 1) (mutLeaf nm (emptyRes rid) f) r σ =
      some ⟨Except.ok r, Store.write σ r (f (Store.read σ r)),
        [Event.ranOwn nm r, Event.exited nm r]⟩ := rfl

/-- Folding a list of mutation-only leaves sequentially: the state
reference is threaded unchanged and the final contents are the fold of
the mutations. -/
theorem seqRun_mutLeaves (fuel rid : Nat) (p : String) :
    ∀ (fs : List (String × (RAGState → RAGState))) (r : Ref) (σ : Store), r < σ.length →
      ∃ σ2 tr, seqRun (callT (fuel + 1)) p (fs.map (fun q => mutLeaf q.1 (emptyRes rid) q.2)) r σ
          = some ⟨Except.ok r, σ2, tr⟩
        ∧ Store.read σ2 r = fs.foldl (fun s q => q.2 s) (Store.read σ r)
        ∧ σ2.length = σ.length := by
  intro fs
  induction fs with
  | nil =>
    intro r σ hr
    exact ⟨σ, [], rfl, rfl, rfl⟩
  | cons q fs ih =>
    intro r σ hr
    obtain ⟨σ2, tr2, hrun, hread, hlen⟩ :=
      ih r (Store.write σ r (q.2 (Store.read σ r))) (by rw [store_write_length]; exact hr)
    refine ⟨σ2, Event.childStart p q.1 r :: [Event.ranOwn q.1 r, Event.exited q.1 r] ++ tr2,
      ?_, ?_, ?_⟩
    · unfold seqRun
      simp only [List.map_cons]
      rw [callT_mutLeaf fuel q.1 rid q.2 r σ]
      dsimp only
      rw [hrun]
      rfl
    · rw [hread, store_read_write σ r _ hr, List.foldl_cons]
    · rw [hlen, store_write_length]

/-- C3: a pipeline with sequential children whose only effect is state
mutation computes, by `run`, exactly the fold of the children's
`transform` mutations over the input state, each child receiving the
state produced by the previous one; the root's pass-through `transform`
returns that final state. -/
theorem c3_sequential_run_folds (fuel rid : Nat)
    (fs : List (String × (RAGState → RAGState))) (st : RAGState) :
    (runPipeline (fuel + 2)
        (seqPipe (emptyRes rid) (fs.map (fun q => mutLeaf q.1 (emptyRes rid) q.2))) st).map
        (fun u => (u.res, u.store))
      = some (Except.ok 0, [fs.foldl (fun s q => q.2 s) st]) := by
  obtain ⟨σ2, tr2, hrun, hread, hlen⟩ :=
    seqRun_mutLeaves fuel rid ("BasePipeline") fs 0 [st] (by simp)
  have hrc : runChildren (callT (fuel + 1))
      (seqPipe (emptyRes rid) (fs.map (fun q => mutLeaf q.1 (emptyRes rid) q.2))) 0 [st]
      = some ⟨Except.ok 0, σ2, tr2⟩ := hrun
  have hcb : callT (fuel + 2)
      (seqPipe (emptyRes rid) (fs.map (fun q => mutLeaf q.1 (emptyRes rid) q.2))) 0 [st]
      = callBody (callT (fuel + 1))
          (seqPipe (emptyRes rid) (fs.map (fun q => mutLeaf q.1 (emptyRes rid) q.2)))
          (emptyRes rid) 0 [st] :=
    callStep_eq_body (callT (fuel + 1)) _ _ (emptyRes rid) 0 [st]
      (initT_inited none _ rfl) rfl
  have hbody := callBody_ok_no_listeners (callT (fuel + 1))
    (seqPipe (emptyRes rid) (fs.map (fun q => mutLeaf q.1 (emptyRes rid) q.2)))
    (emptyRes rid) 0 0 [st] ⟨Except.ok 0, σ2, tr2⟩ rfl hrc rfl
  unfold runPipeline
  rw [hcb, hbody]
  rcases σ2 with _ | ⟨x, σ3⟩
  · simp at hlen
  · rcases σ3 with _ | ⟨y, σ4⟩
    · have hx : x = fs.foldl (fun s q => q.2 s) st := hread
      subst hx
      rfl
    · simp at hlen

/-- A node is the head of its own `nodesList`. -/
theorem self_mem_nodesList (t : BaseTransform) : t ∈ nodesList t := by
  rcases t with ⟨d, ots, attrs⟩
  cases ots <;> simp [nodesList]

/-- Membership in the `nodesList` of a children list. -/
theorem mem_nodesListL {x : BaseTransform} : ∀ {cs : List BaseTransform},
    x ∈ nodesListL cs ↔ ∃ c ∈ cs, x ∈ nodesList c := by
  intro cs
  induction cs with
  | nil => simp [nodesListL]
  | cons c cs ih => simp [nodesListL, List.mem_append, ih]

/-- The parent-loop rename commutes into the node record. -/
theorem initT_rename (arg : Option SharedResource) (nm : String) (dc : TransformData)
    (otsc : Option (List BaseTransform)) (attrsc : List BaseTransform) :
    initT arg (some nm) (.mk dc otsc attrsc)
      = initT arg none (.mk { dc with name := nm } otsc attrsc) := rfl

/-- Renaming does not change the node count. -/
theorem tsize_mk_name (dc : TransformData) (nm : String)
    (otsc : Option (List BaseTransform)) (attrsc : List BaseTransform) :
    tsize (.mk { dc with name := nm } otsc attrsc) = tsize (.mk dc otsc attrsc) := by
  cases otsc <;> rfl

/-- `nodesList` of a renamed node: renamed head, same tail. -/
theorem nodesList_mk_name (dc : TransformData) (nm : String)
    (otsc : Option (List BaseTransform)) (attrsc : List BaseTransform) :
    nodesList (.mk { dc with name := nm } otsc attrsc)
      = .mk { dc with name := nm } otsc attrsc :: (nodesList (.mk dc otsc attrsc)).tail := by
  cases otsc <;> rfl

/-- The tail view of `nodesList`. -/
theorem nodesList_eq_cons (d : TransformData) (ots : Option (List BaseTransform))
    (attrs : List BaseTransform) :
    nodesList (.mk d ots attrs)
      = .mk d ots attrs :: (nodesList (.mk d ots attrs)).tail := by
  cases ots <;> rfl

/-- Soundness of one `_init` pass over a fresh tree: the resolved
resource reaches every node of the declared-children tree and every
node comes out initialized. -/
theorem init_sound : ∀ (n : Nat) (t : BaseTransform), tsize t ≤ n →
    ∀ (arg : Option SharedResource) (S : SharedResource) (u : BaseTransform),
      resolveShared arg t.sharedF = some S →
      (∀ x ∈ nodesList t, x.initedF = false) →
      initT arg none t = Except.ok u →
      ∀ x ∈ nodesList u, x.sharedF = some S ∧ x.initedF = true := by
  intro n
  induction n with
  | zero =>
    intro t ht
    exfalso
    rcases t with ⟨d, ots, attrs⟩
    cases ots <;> simp [tsize] at ht
  | succ n ih =>
    intro t ht arg S u hS hfresh hinit
    have hlist : ∀ (cs : List BaseTransform), tsizeL cs ≤ n →
        (∀ c ∈ cs, ∀ x ∈ nodesList c, x.initedF = false) →
        ∀ (p : String) (cs2 : List BaseTransform), initList p S cs = Except.ok cs2 →
        ∀ c2 ∈ cs2, ∀ x ∈ nodesList c2, x.sharedF = some S ∧ x.initedF = true := by
      intro cs
      induction cs with
      | nil =>
        intro _ _ p cs2 hcs2
        unfold initList at hcs2
        obtain rfl : ([] : List BaseTransform) = cs2 := (Except.ok.injEq _ _).mp hcs2
        intro c2 hc2
        cases hc2
      | cons c cs ihc =>
        intro hsz hfr p cs2 hcs2
        simp only [tsizeL] at hsz
        unfold initList at hcs2
        split at hcs2
        · next c2h cs2h heqA heqB =>
          obtain rfl : c2h :: cs2h = cs2 := (Except.ok.injEq _ _).mp hcs2
          intro c2 hc2 x hx
          rcases List.mem_cons.mp hc2 with rfl | hc2
          · rcases c with ⟨dc, otsc, attrsc⟩
            rw [initT_rename] at heqA
            have hfrc := hfr (.mk dc otsc attrsc) (List.mem_cons_self _ _)
            refine ih
              (.mk { dc with name := p ++ "::" ++ (BaseTransform.mk dc otsc attrsc).nameF }
                otsc attrsc)
              (by rw [tsize_mk_name]; omega) (some S) S c2 rfl ?_ heqA x hx
            intro y hy
            rw [nodesList_mk_name] at hy
            rcases List.mem_cons.mp hy with rfl | hy
            · have hh := hfrc (.mk dc otsc attrsc) (self_mem_nodesList _)
              simpa [BaseTransform.initedF, BaseTransform.dataF] using hh
            · exact hfrc y (List.mem_of_mem_tail hy)
          · exact ihc (by omega) (fun c' hc' => hfr c' (List.mem_cons_of_mem c hc'))
              p cs2h heqB c2 hc2 x hx
        · next e heqA heqB => cases hcs2
        · next e heqA heqB => cases hcs2
    rcases t with ⟨d, ots, attrs⟩
    simp only [BaseTransform.sharedF, BaseTransform.dataF] at hS
    have hdini : d.inited = false := by
      have hh := hfresh _ (self_mem_nodesList (.mk d ots attrs))
      simpa [BaseTransform.initedF, BaseTransform.dataF] using hh
    unfold initT at hinit
    dsimp only at hinit
    split at hinit
    · next hI => rw [hdini] at hI; cases hI
    · next hI =>
      split at hinit
      · next h0 => rw [hS] at h0; cases h0
      · next S2 h0 =>
        rw [hS] at h0
        obtain rfl : S = S2 := (Option.some.injEq _ _).mp h0
        split at hinit
        · obtain rfl : BaseTransform.mk { d with shared := some S, inited := true } none attrs = u :=
            (Except.ok.injEq _ _).mp hinit
          intro x hx
          simp only [nodesList, List.mem_singleton] at hx
          subst hx
          exact ⟨rfl, rfl⟩
        · next ts =>
          simp only [tsize] at ht
          split at hinit
          · next attrs2 ts2 heqA heqB =>
            obtain rfl : BaseTransform.mk { d with shared := some S, inited := true }
                (some ts2) attrs2 = u := (Except.ok.injEq _ _).mp hinit
            intro x hx
            simp only [nodesList, List.mem_cons] at hx
            rcases hx with rfl | hx
            · exact ⟨rfl, rfl⟩
            · obtain ⟨c2, hc2, hx2⟩ := mem_nodesListL.mp hx
              refine hlist ts (by omega) ?_ d.name ts2 heqB c2 hc2 x hx2
              intro c hc y hy
              refine hfresh y ?_
              have : y ∈ nodesListL ts := mem_nodesListL.mpr ⟨c, hc, hy⟩
              simp [nodesList, this]
          · next e heqA heqB => cases hinit
          · next e heqA heqB => cases hinit

/-- C4: on a fresh tree, one `initialize` pass propagates the resolved
resource to every node of the declared-children tree — every node ends
up holding the same resource instance and marked initialized — and any
further `initialize` call (with or without an argument) is a no-op
returning the tree unchanged: no re-renaming, no duplicate resource
assignment, names and resource identity after the second call equal
those after the first. -/
theorem c4_initialize_once_idempotent (t u : BaseTransform) (arg : Option SharedResource)
    (S : SharedResource)
    (hS : resolveShared arg t.sharedF = some S)
    (hfresh : ∀ x ∈ nodesList t, x.initedF = false)
    (hinit : initT arg none t = Except.ok u) :
    (∀ x ∈ nodesList u, x.sharedF = some S ∧ x.initedF = true)
    ∧ (∀ b, initT b none u = Except.ok u) := by
  have h1 := init_sound (tsize t) t le_rfl arg S u hS hfresh hinit
  refine ⟨h1, fun b => ?_⟩
  exact initT_inited b u (h1 u (self_mem_nodesList u)).2

/-- Witness for C4: the three-level chain `P / M / C` initialized with
`c4res`: every node holds `c4res`, names are `P`, `P::M`, `P::M::C`
renamed exactly once, and a second `initialize` with any argument is a
no-op. -/
theorem c4_witness :
    ((∀ x ∈ nodesList c4expected, x.sharedF = some c4res ∧ x.initedF = true)
      ∧ (∀ b, initT b none c4expected = Except.ok c4expected)) :=
  c4_initialize_once_idempotent c4tree c4expected (some c4res) c4res rfl
    (by
      intro x hx
      simp only [c4tree, c4mid, c4child, mkNode, nodesList, nodesListL, List.mem_cons,
        List.mem_singleton, List.append_nil, List.mem_append, List.not_mem_nil,
        or_false] at hx
      rcases hx with rfl | rfl | rfl <;> rfl)
    rfl

/-- Stripping preserves the node's name. -/
theorem stripT_nameF (t : BaseTransform) : (stripT t).nameF = t.nameF := by
  rcases t with ⟨d, ots, attrs⟩
  rfl

/-- Stripping preserves the initialization flag. -/
theorem stripT_initedF (t : BaseTransform) : (stripT t).initedF = t.initedF := by
  rcases t with ⟨d, ots, attrs⟩
  rfl

/-- Stripping empties the resource's listener list only. -/
theorem stripT_sharedF (t : BaseTransform) : (stripT t).sharedF = t.sharedF.map stripRes := by
  rcases t with ⟨d, ots, attrs⟩
  rfl

/-- Stripping preserves the node's own `transform` hook. -/
theorem stripT_ownT (t : BaseTransform) : (stripT t).dataF.ownT = t.dataF.ownT := by
  rcases t with ⟨d, ots, attrs⟩
  rfl

/-- Stripping commutes with `_init`: initializing a pipeline whose
listener lists were emptied gives the emptied initialized pipeline. -/
theorem initT_strip : ∀ (n : Nat) (t : BaseTransform), tsize t ≤ n →
    ∀ (arg : Option SharedResource) (nn : Option String),
      initT (arg.map stripRes) nn (stripT t) = (initT arg nn t).map stripT := by
  intro n
  induction n with
  | zero =>
    intro t ht
    exfalso
    rcases t with ⟨d, ots, attrs⟩
    cases ots <;> simp [tsize] at ht
  | succ n ih =>
    intro t ht arg nn
    have hlist : ∀ (cs : List BaseTransform), tsizeL cs ≤ n →
        ∀ (p : String) (S : SharedResource),
        initList p (stripRes S) (stripL cs) = (initList p S cs).map stripL := by
      intro cs
      induction cs with
      | nil => intro _ p S; rfl
      | cons c cs ihc =>
        intro hsz p S
        simp only [tsizeL] at hsz
        have hA := ih c (by omega) (some S) (some (p ++ "::" ++ c.nameF))
        simp only [Option.map_some'] at hA
        show initList p (stripRes S) (stripT c :: stripL cs) = _
        unfold initList
        rw [stripT_nameF, hA, ihc (by omega) p S]
        cases initT (some S) (some (p ++ "::" ++ c.nameF)) c <;>
          cases initList p S cs <;> rfl
    rcases t with ⟨d, ots, attrs⟩
    rcases d with ⟨dnm, dik, dok, dsh, dpar, dini, dot, dos⟩
    cases dini with
    | true => cases nn <;> cases ots <;> rfl
    | false =>
      cases arg with
      | some s =>
        cases nn with
        | none =>
          cases ots with
          | none => rfl
          | some ts =>
            simp only [tsize] at ht
            unfold initT
            dsimp only [stripT, stripO, stripD]
            simp only [Option.map_some', Option.map_none', Bool.false_eq_true, if_false, resolveShared]
            rw [hlist attrs (by omega) dnm s, hlist ts (by omega) dnm s]
            cases initList dnm s attrs <;> cases initList dnm s ts <;> rfl
        | some nm =>
          cases ots with
          | none => rfl
          | some ts =>
            simp only [tsize] at ht
            unfold initT
            dsimp only [stripT, stripO, stripD]
            simp only [Option.map_some', Option.map_none', Bool.false_eq_true, if_false, resolveShared]
            rw [hlist attrs (by omega) nm s, hlist ts (by omega) nm s]
            cases initList nm s attrs <;> cases initList nm s ts <;> rfl
      | none =>
        cases dsh with
        | none => cases nn <;> cases ots <;> rfl
        | some s =>
          cases nn with
          | none =>
            cases ots with
            | none => rfl
            | some ts =>
              simp only [tsize] at ht
              unfold initT
              dsimp only [stripT, stripO, stripD]
              simp only [Option.map_some', Option.map_none', Bool.false_eq_true, if_false, resolveShared]
              rw [hlist attrs (by omega) dnm s, hlist ts (by omega) dnm s]
              cases initList dnm s attrs <;> cases initList dnm s ts <;> rfl
          | some nm =>
            cases ots with
            | none => rfl
            | some ts =>
              simp only [tsize] at ht
              unfold initT
              dsimp only [stripT, stripO, stripD]
              simp only [Option.map_some', Option.map_none', Bool.false_eq_true, if_false, resolveShared]
              rw [hlist attrs (by omega) nm s, hlist ts (by omega) nm s]
              cases initList nm s attrs <;> cases initList nm s ts <;> rfl

/-- Resolving over no-op sources yields a no-op resource. -/
theorem noopShared_resolve (arg own : Option SharedResource)
    (h1 : noopShared arg) (h2 : noopShared own) : noopShared (resolveShared arg own) := by
  cases arg with
  | some s => exact h1
  | none => exact h2

/-- `_init` only ever installs listeners that were already reachable:
when every reachable listener (and the argument's) is a no-op, so are
the initialized tree's. -/
theorem initT_noop : ∀ (n : Nat) (t : BaseTransform), tsize t ≤ n →
    ∀ (arg : Option SharedResource) (nn : Option String) (u : BaseTransform),
      allNoop t → noopShared arg → initT arg nn t = Except.ok u → allNoop u := by
  intro n
  induction n with
  | zero =>
    intro t ht
    exfalso
    rcases t with ⟨d, ots, attrs⟩
    cases ots <;> simp [tsize] at ht
  | succ n ih =>
    intro t ht arg nn u hnoop harg hinit
    have hlist : ∀ (cs : List BaseTransform), tsizeL cs ≤ n → allNoopL cs →
        ∀ (p : String) (S : SharedResource), noopShared (some S) →
        ∀ (cs2 : List BaseTransform), initList p S cs = Except.ok cs2 → allNoopL cs2 := by
      intro cs
      induction cs with
      | nil =>
        intro _ _ p S _ cs2 hcs2
        unfold initList at hcs2
        obtain rfl : ([] : List BaseTransform) = cs2 := (Except.ok.injEq _ _).mp hcs2
        trivial
      | cons c cs ihc =>
        intro hsz hn p S hS cs2 hcs2
        obtain ⟨hc, hcs⟩ : allNoop c ∧ allNoopL cs := hn
        simp only [tsizeL] at hsz
        unfold initList at hcs2
        split at hcs2
        · next c2h cs2h heqA heqB =>
          obtain rfl : c2h :: cs2h = cs2 := (Except.ok.injEq _ _).mp hcs2
          exact ⟨ih c (by omega) (some S) _ c2h hc hS heqA,
            ihc (by omega) hcs p S hS cs2h heqB⟩
        · next e h1 h2 => cases hcs2
        · next e h1 h2 => cases hcs2
    rcases t with ⟨d, ots, attrs⟩
    obtain ⟨hshn, hotsn⟩ : noopShared d.shared ∧ allNoopO ots := hnoop
    have hbody : ∀ (d2 : TransformData), noopShared d2.shared →
        initT arg none (.mk d2 ots attrs) = Except.ok u → allNoop u := by
      intro d2 hshn2 hinit2
      unfold initT at hinit2
      dsimp only at hinit2
      split at hinit2
      · obtain rfl := (Except.ok.injEq _ _).mp hinit2
        exact ⟨hshn2, hotsn⟩
      · split at hinit2
        · cases hinit2
        · next S h0 =>
          have hSnoop : noopShared (some S) := by
            rw [← h0]
            exact noopShared_resolve arg d2.shared harg hshn2
          split at hinit2
          · obtain rfl := (Except.ok.injEq _ _).mp hinit2
            exact ⟨hSnoop, trivial⟩
          · next ts =>
            simp only [tsize] at ht
            split at hinit2
            · next attrs2 ts2 heqA heqB =>
              obtain rfl := (Except.ok.injEq _ _).mp hinit2
              exact ⟨hSnoop, hlist ts (by omega) hotsn d2.name S hSnoop ts2 heqB⟩
            · next e h1 h2 => cases hinit2
            · next e h1 h2 => cases hinit2
    cases nn with
    | none => exact hbody d hshn hinit
    | some nm =>
      rw [initT_rename] at hinit
      exact hbody { d with name := nm } hshn hinit

/-- All-successful handler results mean no first failure. -/
theorem firstFail_none : ∀ (rs : List (Option String)),
    (∀ x ∈ rs, x = none) → firstFail rs = none := by
  intro rs
  induction rs with
  | nil => intro _; rfl
  | cons a rs ih =>
    intro h
    have ha := h a (List.mem_cons_self _ _)
    subst ha
    unfold firstFail
    rw [ih (fun x hx => h x (List.mem_cons_of_mem _ hx))]
    rfl

/-- A broadcast over handlers that all succeed reports no failure. -/
theorem broadcast_fail_none (hs : List (RAGState → Option String)) (st : RAGState)
    (h : ∀ g ∈ hs, g st = none) : (broadcast hs st).fail = none := by
  unfold broadcast
  split
  · rfl
  · dsimp only
    rw [firstFail_none]
    · rfl
    · intro x hx
      simp only [List.mem_map] at hx
      obtain ⟨g, hg, rfl⟩ := hx
      exact h g hg

/-- Sequential children compute the same result and store on the
stripped pipeline. -/
theorem seqRun_strip (call : CallFn)
    (hcall : ∀ (c : BaseTransform) (r : Ref) (σ : Store), allNoop c →
      projRS (call c r σ) = projRS (call (stripT c) r σ)) (p : String) :
    ∀ (cs : List BaseTransform) (r : Ref) (σ : Store), allNoopL cs →
      projRS (seqRun call p cs r σ) = projRS (seqRun call p (stripL cs) r σ) := by
  intro cs
  induction cs with
  | nil => intro r σ _; rfl
  | cons c cs ih =>
    intro r σ hn
    obtain ⟨hc, hcs⟩ : allNoop c ∧ allNoopL cs := hn
    have h1 := hcall c r σ hc
    show projRS (seqRun call p (c :: cs) r σ)
      = projRS (seqRun call p (stripT c :: stripL cs) r σ)
    unfold seqRun
    cases hA : call c r σ with
    | none =>
      cases hB : call (stripT c) r σ with
      | none => rfl
      | some v => rw [hA, hB] at h1; simp [projRS] at h1
    | some u =>
      cases hB : call (stripT c) r σ with
      | none => rw [hA, hB] at h1; simp [projRS] at h1
      | some v =>
        rw [hA, hB] at h1
        simp only [projRS, Option.map_some', Option.some.injEq, Prod.mk.injEq] at h1
        obtain ⟨hres, hstore⟩ := h1
        dsimp only
        cases hres2 : u.res with
        | error e =>
          rw [hres2] at hres
          rw [← hres]
          simp [projRS, hstore]
        | ok r2 =>
          rw [hres2] at hres
          rw [← hres, hstore]
          dsimp only
          have h2 := ih r2 v.store hcs
          cases hC : seqRun call p cs r2 v.store with
          | none =>
            cases hD : seqRun call p (stripL cs) r2 v.store with
            | none => rfl
            | some w => rw [hC, hD] at h2; simp [projRS] at h2
          | some w =>
            cases hD : seqRun call p (stripL cs) r2 v.store with
            | none => rw [hC, hD] at h2; simp [projRS] at h2
            | some w2 =>
              rw [hC, hD] at h2
              simp only [projRS, Option.map_some', Option.some.injEq, Prod.mk.injEq] at h2
              obtain ⟨hres3, hstore3⟩ := h2
              simp [projRS, hres3, hstore3]

/-- Parallel children compute the same result and store on the
stripped pipeline. -/
theorem parRun_strip (call : CallFn)
    (hcall : ∀ (c : BaseTransform) (r : Ref) (σ : Store), allNoop c →
      projRS (call c r σ) = projRS (call (stripT c) r σ)) (p : String) (r : Ref) :
    ∀ (cs : List BaseTransform) (σ : Store), allNoopL cs →
      projRS (parRun call p r cs σ) = projRS (parRun call p r (stripL cs) σ) := by
  intro cs
  induction cs with
  | nil => intro σ _; rfl
  | cons c cs ih =>
    intro σ hn
    obtain ⟨hc, hcs⟩ : allNoop c ∧ allNoopL cs := hn
    have h1 := hcall c r σ hc
    show projRS (parRun call p r (c :: cs) σ)
      = projRS (parRun call p r (stripT c :: stripL cs) σ)
    unfold parRun
    cases hA : call c r σ with
    | none =>
      cases hB : call (stripT c) r σ with
      | none => rfl
      | some v => rw [hA, hB] at h1; simp [projRS] at h1
    | some u =>
      cases hB : call (stripT c) r σ with
      | none => rw [hA, hB] at h1; simp [projRS] at h1
      | some v =>
        rw [hA, hB] at h1
        simp only [projRS, Option.map_some', Option.some.injEq, Prod.mk.injEq] at h1
        obtain ⟨hres, hstore⟩ := h1
        dsimp only
        cases hres2 : u.res with
        | error e =>
          rw [hres2] at hres
          rw [← hres]
          simp [projRS, hstore]
        | ok r2 =>
          rw [hres2] at hres
          rw [← hres, hstore]
          dsimp only
          have h2 := ih v.store hcs
          cases hC : parRun call p r cs v.store with
          | none =>
            cases hD : parRun call p r (stripL cs) v.store with
            | none => rfl
            | some w => rw [hC, hD] at h2; simp [projRS] at h2
          | some w =>
            cases hD : parRun call p r (stripL cs) v.store with
            | none => rw [hC, hD] at h2; simp [projRS] at h2
            | some w2 =>
              rw [hC, hD] at h2
              simp only [projRS, Option.map_some', Option.some.injEq, Prod.mk.injEq] at h2
              obtain ⟨hres3, hstore3⟩ := h2
              simp [projRS, hres3, hstore3]

/-- `_run_sub_transforms` computes the same result and store on the
stripped pipeline. -/
theorem runChildren_strip (call : CallFn)
    (hcall : ∀ (c : BaseTransform) (r : Ref) (σ : Store), allNoop c →
      projRS (call c r σ) = projRS (call (stripT c) r σ))
    (t1 : BaseTransform) (r : Ref) (σ : Store) (hnoop : allNoop t1) :
    projRS (runChildren call t1 r σ) = projRS (runChildren call (stripT t1) r σ) := by
  rcases t1 with ⟨d, ots, attrs⟩
  obtain ⟨hshn, hotsn⟩ : noopShared d.shared ∧ allNoopO ots := hnoop
  cases ots with
  | none => rfl
  | some ts =>
    show projRS (runChildren call (.mk d (some ts) attrs) r σ)
      = projRS (runChildren call (.mk (stripD d) (some (stripL ts)) (stripL attrs)) r σ)
    unfold runChildren
    dsimp only [BaseTransform.transformsF, BaseTransform.nameF, BaseTransform.parF,
      BaseTransform.dataF, stripD]
    cases hp : d.runInParallel with
    | true =>
      exact parRun_strip call hcall d.name r ts σ hotsn
    | false =>
      exact seqRun_strip call hcall d.name ts r σ hotsn

/-- `callBody` computes the same result and store whether the no-op
listeners are present or stripped. -/
theorem callBody_strip (call : CallFn)
    (hcall : ∀ (c : BaseTransform) (r : Ref) (σ : Store), allNoop c →
      projRS (call c r σ) = projRS (call (stripT c) r σ))
    (t1 : BaseTransform) (S : SharedResource) (r : Ref) (σ : Store)
    (hnoop : allNoop t1) (hsh : t1.sharedF = some S) :
    projRS (callBody call t1 S r σ) = projRS (callBody call (stripT t1) (stripRes S) r σ) := by
  have hSn : ∀ l ∈ S.listeners, noopL l := by
    rcases t1 with ⟨d, ots, attrs⟩
    obtain ⟨hshn, h2⟩ : noopShared d.shared ∧ allNoopO ots := hnoop
    simp only [BaseTransform.sharedF, BaseTransform.dataF] at hsh
    rw [hsh] at hshn
    exact hshn
  have hrc := runChildren_strip call hcall t1 r σ hnoop
  have hfL : ∀ st, (broadcast (S.listeners.map (fun l => fun s => l.onEnter t1.nameF s)) st).fail
      = none := by
    intro st
    apply broadcast_fail_none
    intro g hg
    simp only [List.mem_map] at hg
    obtain ⟨l, hl, rfl⟩ := hg
    exact ((hSn l hl) t1.nameF st).1
  have hfL2 : ∀ st, (broadcast (S.listeners.map (fun l => fun s => l.onExit t1.nameF s)) st).fail
      = none := by
    intro st
    apply broadcast_fail_none
    intro g hg
    simp only [List.mem_map] at hg
    obtain ⟨l, hl, rfl⟩ := hg
    exact ((hSn l hl) t1.nameF st).2
  unfold callBody
  dsimp only [stripRes]
  simp only [List.map_nil]
  have hbnil : ∀ st, broadcast ([] : List (RAGState → Option String)) st = (⟨[], none⟩ : BRes) :=
    fun _ => rfl
  simp only [hbnil]
  rw [hfL (Store.read σ r)]
  dsimp only
  cases hC : runChildren call t1 r σ with
  | none =>
    cases hD : runChildren call (stripT t1) r σ with
    | none => rfl
    | some v => rw [hC, hD] at hrc; simp [projRS] at hrc
  | some u =>
    cases hD : runChildren call (stripT t1) r σ with
    | none => rw [hC, hD] at hrc; simp [projRS] at hrc
    | some v =>
      rw [hC, hD] at hrc
      simp only [projRS, Option.map_some', Option.some.injEq, Prod.mk.injEq] at hrc
      obtain ⟨hres, hstore⟩ := hrc
      dsimp only
      cases hres2 : u.res with
      | error e =>
        rw [hres2] at hres
        rw [← hres]
        simp [projRS, hstore]
      | ok r1 =>
        rw [hres2] at hres
        rw [← hres, hstore, stripT_ownT]
        dsimp only
        rw [hfL2 (Store.read (t1.dataF.ownT r1 v.store).2 r1)]
        dsimp only
        rfl

/-- C8: listener presence never changes the computed state — for every
pipeline whose listeners are all no-ops, `run` produces exactly the
same result and final store as the same pipeline with every listener
list emptied; listeners only add notifications to the event trace. -/
theorem c8_noop_listeners_no_effect : ∀ (fuel : Nat) (t : BaseTransform) (r : Ref) (σ : Store),
    allNoop t →
    projRS (callT fuel t r σ) = projRS (callT fuel (stripT t) r σ) := by
  intro fuel
  induction fuel with
  | zero => intro t r σ _; rfl
  | succ fuel ih =>
    intro t r σ hnoop
    show projRS (callStep (callT fuel) t r σ) = projRS (callStep (callT fuel) (stripT t) r σ)
    unfold callStep
    have hstrip := initT_strip (tsize t) t le_rfl none none
    simp only [Option.map_none'] at hstrip
    rw [hstrip]
    cases hinit : initT none none t with
    | error e => rfl
    | ok t1 =>
      dsimp only [Except.map]
      have hnoop1 : allNoop t1 := initT_noop (tsize t) t le_rfl none none t1 hnoop trivial hinit
      rw [stripT_sharedF]
      cases hsh : t1.sharedF with
      | none => rfl
      | some S =>
        dsimp only [Option.map]
        exact callBody_strip (callT fuel) ih t1 S r σ hnoop1 hsh

/-- Witness for C8: the pipeline `c8tree` carrying one no-op listener
computes the same result and store as its listener-stripped version. -/
theorem c8_witness :
    projRS (callT 3 c8tree 0 [[]]) = projRS (callT 3 (stripT c8tree) 0 [[]]) :=
  c8_noop_listeners_no_effect 3 c8tree 0 [[]]
    (by
      refine ⟨?_, ⟨⟨trivial, trivial⟩, trivial⟩⟩
      intro l hl
      simp only [List.mem_singleton] at hl
      subst hl
      exact fun n s => ⟨rfl, rfl⟩)

end Srag
